import Mathlib

/-!
Verification of the chapter/segment splitting, format detection, narration
loop and persistence logic of the go-novel-reader repository.

Strings are modelled as lists of characters (`GoStr`); the Go standard
library primitives used by the source (`strings.Split`, `strings.TrimSpace`,
`bufio.ScanLines`, `regexp.Split` on the fixed pattern, and the three fixed
chapter-heading regular expressions) are translated into executable Lean
functions on `GoStr`.
-/

/-- Strings of the Go source, modelled as lists of characters. -/
abbrev GoStr := List Char

/-- The whitespace class of Go's `unicode.IsSpace`, used by
`strings.TrimSpace`: `\t`–`\r` (0x09–0x0D), space, NEL, NBSP, and the
Unicode `White_Space` code points. -/
def goSpace (c : Char) : Bool :=
  (0x09 ≤ c.val && c.val ≤ 0x0D) || c.val = 0x20 || c.val = 0x85 || c.val = 0xA0 ||
  c.val = 0x1680 || (0x2000 ≤ c.val && c.val ≤ 0x200A) ||
  c.val = 0x2028 || c.val = 0x2029 || c.val = 0x202F || c.val = 0x205F || c.val = 0x3000

/-- The whitespace class `\s` of Go's RE2 regular expressions:
`[\t\n\f\r ]`. -/
def reSpace (c : Char) : Bool :=
  c = '\t' || c = '\n' || c = '\x0C' || c = '\r' || c = ' '

/-- Go's `strings.TrimSpace`: drop `goSpace` characters from both ends. -/
def trimGo (s : GoStr) : GoStr :=
  ((s.dropWhile goSpace).reverse.dropWhile goSpace).reverse

/-- Prepend a character to the first piece of a non-empty piece list
(helper for the splitting functions below). -/
def consHead (c : Char) : List GoStr → List GoStr
  | [] => [[c]]
  | p :: ps => (c :: p) :: ps

/-- Go's `strings.Split(s, "\n")`: split at every newline, keeping empty
pieces; `n` separators yield `n+1` pieces, the empty string yields one
empty piece.  Used by `DetectFormat` (src/novel/parser.go line 49). -/
def splitNL : GoStr → List GoStr
  | [] => [[]]
  | c :: cs => if c = '\n' then [] :: splitNL cs else consHead c (splitNL cs)

/-- The `dropCR` step of Go's `bufio.ScanLines`: strip one trailing
carriage return from a line. -/
def dropCR (l : GoStr) : GoStr :=
  if l.getLast? = some '\r' then l.dropLast else l

/-- Go's `bufio.Scanner` with `bufio.ScanLines`, as used by `ParseNovel`
(src/novel/parser.go lines 114–118): split at newlines, strip a trailing
`\r` from each line, and do not produce a final empty line for input
ending in a newline (the empty input yields no lines at all). -/
def scanLines (doc : GoStr) : List GoStr :=
  let ps := splitNL doc
  (if ps.getLast? = some [] then ps.dropLast else ps).map dropCR

mutual
/-- Go's `regexp.MustCompile("\n+").Split(s, -1)` (the `segmentSeparator`
of src/main.go line 41): split `s` at every maximal run of one-or-more
newline characters, keeping pieces that are empty (which arise exactly at
a leading or trailing newline run). -/
def splitNLRuns : GoStr → List GoStr
  | [] => [[]]
  | c :: cs => if c = '\n' then [] :: afterNLRun cs else consHead c (splitNLRuns cs)

/-- Skip the remainder of a newline run, then continue splitting
(helper of `splitNLRuns`). -/
def afterNLRun : GoStr → List GoStr
  | [] => [[]]
  | c :: cs => if c = '\n' then afterNLRun cs else consHead c (splitNLRuns cs)
end

/-- Join lines the way `ParseNovel` accumulates a chapter body: each line
followed by one newline (src/novel/parser.go lines 135–136). -/
def joinNL (ls : List GoStr) : GoStr :=
  (ls.map (fun l => l ++ ['\n'])).flatten

/-! ## The three chapter-heading patterns (src/novel/parser.go lines 21–25)

Each Go pattern is anchored (`^...$`) and built from character classes that
are pairwise disjoint at every boundary, so the greedy maximal-munch parse
below is exactly the RE2 match. -/

/-- The character class `[一二三四五六七八九十百千万零〇\d]` of the
chinese heading pattern. -/
def cjkDigit (c : Char) : Bool :=
  c = '一' || c = '二' || c = '三' || c = '四' || c = '五' || c = '六' ||
  c = '七' || c = '八' || c = '九' || c = '十' || c = '百' || c = '千' ||
  c = '万' || c = '零' || c = '〇' || c.isDigit

/-- The character class `[章卷节回]` of the chinese heading pattern. -/
def structWord (c : Char) : Bool :=
  c = '章' || c = '卷' || c = '节' || c = '回'

/-- Match of the pattern `^\s*第\s*[一二三四五六七八九十百千万零〇\d]+\s*[章卷节回].*$`
against a whole string (`.` does not match a newline, so the trailing `.*$`
requires the remainder to be newline-free). -/
def matchChinese (l : GoStr) : Bool :=
  match l.dropWhile reSpace with
  | [] => false
  | c :: r =>
    c = '第' &&
      (let r1 := r.dropWhile reSpace
       let digits := r1.takeWhile cjkDigit
       let r2 := r1.dropWhile cjkDigit
       !digits.isEmpty &&
         (match r2.dropWhile reSpace with
          | [] => false
          | c2 :: rest => structWord c2 && !rest.contains '\n'))

/-- Match of the pattern `^\s*Chapter\s+\d+.*$` against a whole string. -/
def matchEnglish (l : GoStr) : Bool :=
  let r := l.dropWhile reSpace
  (r.take 7 = ("Chapter").toList) &&
    (let r1 := r.drop 7
     let sp := r1.takeWhile reSpace
     !sp.isEmpty &&
       (match r1.dropWhile reSpace with
        | [] => false
        | c :: rest => c.isDigit && !rest.contains '\n'))

/-- Match of the pattern `^\s*#{1,6}\s+.*$` against a whole string
(a run of more than six `#` cannot match, since `\s+` then finds a `#`). -/
def matchMarkdown (l : GoStr) : Bool :=
  let r := l.dropWhile reSpace
  let k := (r.takeWhile (fun c => c = '#')).length
  let r2 := r.dropWhile (fun c => c = '#')
  decide (1 ≤ k) && decide (k ≤ 6) &&
    (let sp := r2.takeWhile reSpace
     !sp.isEmpty && !((r2.dropWhile reSpace).contains '\n'))

/-- The names of the three candidate patterns in `ChapterRegexes`
(src/novel/parser.go lines 21–25). -/
inductive Format
  | chinese
  | english
  | markdown
  deriving DecidableEq, Repr

/-- The pattern each name maps to in `ChapterRegexes`. -/
def formatMatch : Format → GoStr → Bool
  | .chinese => matchChinese
  | .english => matchEnglish
  | .markdown => matchMarkdown

/-- All three pattern names. -/
def formats : List Format := [.chinese, .english, .markdown]

/-- The score a format obtains in `DetectFormat` (src/novel/parser.go
lines 47–62): the number of lines of the sample (split at `\n`) whose
trimmed form is non-empty and matches the format's pattern. -/
def scoreOf (sample : GoStr) (f : Format) : Nat :=
  ((splitNL sample).filter
    (fun l => !(trimGo l).isEmpty && formatMatch f (trimGo l))).length

/-- The selection loop of `DetectFormat` (src/novel/parser.go lines 65–76):
fold over the formats present in the `scores` map, in the map's iteration
order, keeping the first format whose score strictly exceeds the running
maximum (which starts at 1); ties never replace the current best.  The Go
map holds only formats with score ≥ 1, but a format with score 0 can never
exceed the running maximum ≥ 1, so folding over any key order that
includes extra zero-score formats is equivalent. -/
def selectLoop (score : Format → Nat) (order : List Format) : Option Format × Nat :=
  order.foldl (fun bm f => if score f > bm.2 then (some f, score f) else bm)
    (none, 1)

/-- `DetectFormat` (src/novel/parser.go lines 47–99) on an in-memory
sample, parameterized by `order`, the iteration order of the Go `scores`
map (Go randomizes map iteration, so any permutation of the present keys
is a possible run).  When no format exceeds the threshold the source falls
back to markdown if markdown scored at least once and otherwise fails; the
source's final branch with an empty best format and a maximum above the
threshold is unreachable (the maximum is only raised together with the
best format) and is modelled as `none`. -/
def detectFormat (order : List Format) (sample : GoStr) : Option Format :=
  let score := scoreOf sample
  match selectLoop score order with
  | (some f, _) => some f
  | (none, m) =>
    if m ≤ 1 then
      if 1 ≤ score .markdown then some .markdown else none
    else none

/-! ## Chapter splitting (`ParseNovel`, src/novel/parser.go lines 103–158) -/

/-- A chapter of the novel (src/novel/parser.go lines 14–17). -/
structure Chapter where
  title : GoStr
  content : GoStr
  deriving DecidableEq, Repr

/-- The loop state of `ParseNovel`: the chapters flushed so far, the open
chapter's title and accumulated content, and the `firstChapter` flag. -/
structure PState where
  chapters : List Chapter
  title : GoStr
  content : GoStr
  first : Bool
  deriving DecidableEq, Repr

/-- Flush the open chapter, if any, with trimmed title and content
(src/novel/parser.go lines 121–127 and 142–147). -/
def pFlush (st : PState) : List Chapter :=
  if st.first then st.chapters
  else st.chapters ++ [⟨trimGo st.title, trimGo st.content⟩]

/-- The scanner loop of `ParseNovel` (src/novel/parser.go lines 117–139):
a line matching the pattern flushes the open chapter and opens a new one;
any other line is appended (with its newline restored) to the open
chapter's content, and is discarded before the first heading. -/
def parseLoop (p : GoStr → Bool) : List GoStr → PState → PState
  | [], st => st
  | line :: rest, st =>
    if p line then
      parseLoop p rest ⟨pFlush st, line, [], false⟩
    else
      parseLoop p rest
        { st with content := if st.first then st.content
                             else st.content ++ line ++ ['\n'] }

/-- `ParseNovel` (src/novel/parser.go lines 103–158) on an in-memory
document: scan the lines, flush the last open chapter, and fail when no
chapter was produced. -/
def parseNovel (p : GoStr → Bool) (doc : GoStr) : Except Unit (List Chapter) :=
  let chapters := pFlush (parseLoop p (scanLines doc) ⟨[], [], [], true⟩)
  if chapters.isEmpty then .error () else .ok chapters

/-- Modelled from the spec's partition law: starting from an open block
with heading `cur.1` and body lines `cur.2`, group the remaining lines
into blocks, a new block at every line matching the pattern. -/
def blocksGo (p : GoStr → Bool) (cur : GoStr × List GoStr) :
    List GoStr → List (GoStr × List GoStr)
  | [] => [cur]
  | l :: ls =>
    if p l then cur :: blocksGo p (l, []) ls
    else blocksGo p (cur.1, cur.2 ++ [l]) ls

/-- Modelled from the spec's partition law: the blocks of a document's
lines, each a matched heading line together with the following non-heading
lines; lines before the first matched heading belong to no block. -/
def chapterBlocks (p : GoStr → Bool) : List GoStr → List (GoStr × List GoStr)
  | [] => []
  | l :: ls => if p l then blocksGo p (l, []) ls else chapterBlocks p ls

/-- The chapter a block denotes: trimmed heading as title, trimmed joined
lines as content. -/
def blockChapter (b : GoStr × List GoStr) : Chapter :=
  ⟨trimGo b.1, trimGo (joinNL b.2)⟩

instance (ε α : Type) [DecidableEq ε] [DecidableEq α] : DecidableEq (Except ε α) :=
  fun a b =>
    match a, b with
    | .ok x, .ok y =>
      if h : x = y then .isTrue (by rw [h])
      else .isFalse (fun hh => h (by injection hh))
    | .error x, .error y =>
      if h : x = y then .isTrue (by rw [h])
      else .isFalse (fun hh => h (by injection hh))
    | .ok _, .error _ => .isFalse (fun hh => Except.noConfusion hh)
    | .error _, .ok _ => .isFalse (fun hh => Except.noConfusion hh)

/-! ## The read invocation (`handleRead`, src/main.go lines 363–500) -/

/-- The resolved inputs of a read invocation after validation
(src/main.go lines 383–441): the target chapter, the starting segment,
the in-memory progress entry after any self-healing correction, and the
number of immediate `saveProgress` calls performed. -/
structure ReadSetup where
  target : Nat
  startSeg : Nat
  stored : Int × Int
  saves : Nat
  deriving DecidableEq, Repr

/-- The ways the prologue of `handleRead` ends the invocation early:
no chapters loaded (line 369), an invalid chapter argument (line 390,
`log.Fatalf`), or an empty segment list (line 427). -/
inductive ReadAbort
  | noChapters
  | badArg
  | emptySegments
  deriving DecidableEq, Repr

/-- The segment-index validation of `handleRead` (src/main.go lines
426–441): compute the segment list of the chosen chapter, return early if
it is empty (unreachable, since the splitter never returns an empty
list), and self-heal an out-of-range starting segment index to 0 — also
resetting the stored segment index, with an immediate save, if it was not
already 0. -/
def readSegValidate (chapters : List Chapter) (target startSeg : Int)
    (st : Int × Int) (saves : Nat) : Except ReadAbort ReadSetup :=
  let segments := splitNLRuns (chapters.getD target.toNat ⟨[], []⟩).content
  if segments.length = 0 then .error .emptySegments
  else if startSeg < 0 ∨ (segments.length : Int) ≤ startSeg then
    if st.2 ≠ 0 then .ok ⟨target.toNat, 0, (st.1, 0), saves + 1⟩
    else .ok ⟨target.toNat, 0, st, saves⟩
  else .ok ⟨target.toNat, startSeg.toNat, st, saves⟩

/-- The chapter-index validation of `handleRead` (src/main.go lines
409–420): an out-of-range target chapter index is clamped to chapter 0,
segment 0 — also resetting the stored progress entry to `(0, 0)`, with an
immediate save, if it differed. -/
def readValidate (chapters : List Chapter) (target startSeg : Int)
    (st : Int × Int) (saves : Nat) : Except ReadAbort ReadSetup :=
  if target < 0 ∨ (chapters.length : Int) ≤ target then
    if st ≠ (0, 0) then readSegValidate chapters 0 0 (0, 0) (saves + 1)
    else readSegValidate chapters 0 0 st saves
  else readSegValidate chapters target startSeg st saves

/-- The prologue of `handleRead` (src/main.go lines 363–441), given the
loaded chapters, the persisted progress entry for the active novel, and
the optional 1-based chapter argument: return early when no chapters are
loaded (line 369); an invalid explicit argument is fatal (line 390); an
explicit chapter change resets the segment to 0 and saves immediately
(lines 400–407); then the chapter and segment indices are validated and
self-healed. -/
def readPrologue (chapters : List Chapter) (stored : Int × Int)
    (arg : Option Int) : Except ReadAbort ReadSetup :=
  if chapters.length = 0 then .error .noChapters
  else
    match arg with
    | some idx =>
      if idx < 1 ∨ (chapters.length : Int) < idx then .error .badArg
      else if idx - 1 ≠ stored.1 then
        readValidate chapters (idx - 1) 0 (idx - 1, 0) 1
      else readValidate chapters stored.1 stored.2 stored 0
    | none => readValidate chapters stored.1 stored.2 stored 0

/-- The empty-text guard of `tts.SpeakAsync` (src/tts/speaker.go lines
17–19): submission is rejected synchronously when the text is empty. -/
def speakAsyncRejects (text : GoStr) : Bool :=
  text == []

/-- The outcome of one speech request, as observed by the read loop: the
submission itself can fail (`SpeakAsync` returns an error, src/tts/
speaker.go lines 13–25), or the wait on the completion channel can yield
an error, succeed, or never return because the process dies while the
segment is speaking. -/
inductive SegOutcome
  | submitFail
  | crashWhileSpeaking
  | completeErr
  | completeOk
  deriving DecidableEq, Repr

/-- How one invocation of the segment loop ends. -/
inductive LoopExit
  | submitError
  | speechError
  | crashed
  | stoppedNoAuto
  | finishedChapter
  deriving DecidableEq, Repr

/-- The mutable state of the segment loop: the in-memory progress entry,
the dirty flag, the progress last flushed to durable storage, the count
of segments completed in this session, and the texts submitted to the
speech capability so far. -/
structure LoopState where
  prog : Int × Int
  dirty : Bool
  persisted : Int × Int
  completed : Nat
  submitted : List GoStr
  deriving DecidableEq, Repr

/-- The in-memory progress update of src/main.go lines 457–462, performed
immediately after a successful submission and before waiting on the
completion channel. -/
def progUpdate (target segIdx : Nat) (st : LoopState) : LoopState :=
  if st.prog ≠ ((target : Int), (segIdx : Int)) then
    { st with prog := ((target : Int), (segIdx : Int)), dirty := true }
  else st

/-- The periodic save of src/main.go lines 474–478: every 20 completed
segments, flush the in-memory progress to durable storage if dirty. -/
def maybeSave (st : LoopState) : LoopState :=
  if st.completed % 20 = 0 ∧ st.dirty then
    { st with persisted := st.prog, dirty := false }
  else st

/-- The segment loop of `handleRead` (src/main.go lines 443–487), driven
by `oracle`, the behaviour of the external speech capability on each
segment index: skip pieces that are empty after trimming; abort on a
submission failure without touching progress; otherwise update the
in-memory progress before blocking on completion; abort on a completion
error; save opportunistically every 20 completed segments; stop after one
segment when auto-advance is off; and finish the chapter after the last
segment. -/
def readLoop (autoNext : Bool) (target : Nat) (segments : List GoStr)
    (oracle : Nat → SegOutcome) (segIdx : Nat) (st : LoopState) :
    LoopState × LoopExit :=
  if segIdx < segments.length then
    let segmentText := trimGo (segments.getD segIdx [])
    if segmentText = [] then
      readLoop autoNext target segments oracle (segIdx + 1) st
    else
      let st := { st with submitted := st.submitted ++ [segmentText] }
      match oracle segIdx with
      | .submitFail => (st, .submitError)
      | .crashWhileSpeaking => (progUpdate target segIdx st, .crashed)
      | .completeErr => (progUpdate target segIdx st, .speechError)
      | .completeOk =>
        let st := progUpdate target segIdx st
        let st := maybeSave { st with completed := st.completed + 1 }
        if !autoNext then (st, .stoppedNoAuto)
        else if segIdx = segments.length - 1 then (st, .finishedChapter)
        else readLoop autoNext target segments oracle (segIdx + 1) st
  else (st, .finishedChapter)
termination_by segments.length - segIdx

/-! ## Persistence loading (src/unnamed/part_002 lines 39–62 and 100–123,
src/main.go lines 44–63) -/

/-- Metadata for a single novel (src/unnamed/part_002 lines 14–19);
the Go map of chapters is modelled as an association list. -/
structure NovelInfo where
  filePath : GoStr
  chapterTitles : List GoStr
  detectedRegex : GoStr
  deriving DecidableEq, Repr

/-- The application configuration (src/unnamed/part_002 lines 22–26). -/
structure AppConfig where
  novels : List (GoStr × NovelInfo)
  activeNovelPath : GoStr
  autoReadNext : Bool
  deriving DecidableEq, Repr

/-- The reading progress for a single novel (src/unnamed/part_002 lines
80–83). -/
structure ProgressInfo where
  lastReadChapterIndex : Int
  lastReadSegmentIndex : Int
  deriving DecidableEq, Repr

/-- The progress map (src/unnamed/part_002 line 86), modelled as an
association list. -/
def ProgressData := List (GoStr × ProgressInfo)

/-- The outcome of reading and unmarshalling one persistence file,
abstracting `os.ReadFile` plus `json.Unmarshal`: the file may be absent,
unreadable (an I/O error other than not-exist), or readable with bytes
that unmarshal to `some v` or fail to unmarshal (`none`). -/
inductive FileRead (α : Type)
  | notExist
  | readErr
  | content (parsed : Option α)

/-- `config.LoadConfig` (src/unnamed/part_002 lines 39–62): an absent
file yields the empty default configuration; a read error or an
unmarshal failure is returned as an error. -/
def loadConfig : FileRead AppConfig → Except Unit AppConfig
  | .notExist => .ok ⟨[], [], false⟩
  | .readErr => .error ()
  | .content none => .error ()
  | .content (some cfg) => .ok cfg

/-- `config.LoadProgress` (src/unnamed/part_002 lines 100–123): an absent
file or an unmarshal failure yields the empty map; only a read error is
returned as an error. -/
def loadProgress : FileRead ProgressData → Except Unit ProgressData
  | .notExist => .ok []
  | .readErr => .error ()
  | .content none => .ok []
  | .content (some p) => .ok p

/-- The startup loading sequence of `main` (src/main.go lines 44–63):
any error from `LoadConfig` or `LoadProgress` calls `log.Fatalf`, which
terminates the process (modelled as `none`). -/
def startupLoads (cf : FileRead AppConfig) (pf : FileRead ProgressData) :
    Option (AppConfig × ProgressData) :=
  match loadConfig cf with
  | .error _ => none
  | .ok cfg =>
    match loadProgress pf with
    | .error _ => none
    | .ok prog => some (cfg, prog)

/-- The progress entry after the loop has processed segments
`start ≤ j < k` without yet touching segment `k`: the last non-skipped
segment index before `k` (paired with the target chapter), or the initial
entry if every earlier piece trimmed to empty. -/
def lastStartedProg (target : Nat) (segments : List GoStr) (p0 : Int × Int)
    (start k : Nat) : Int × Int :=
  (List.range' start (k - start)).foldl
    (fun p j => if trimGo (segments.getD j []) = [] then p
                else ((target : Int), (j : Int))) p0

/-! ## Concrete inputs used by the scenario theorems, counterexamples and
witnesses -/

/-- The scenario document of the spec:
`"Chapter 1\nHello\n\nWorld\n\nChapter 2\nBye\n"`. -/
def scenarioDoc : GoStr := ("Chapter 1\nHello\n\nWorld\n\nChapter 2\nBye\n").toList

/-- A sample on which the english and markdown patterns tie with score 2. -/
def tieSample : GoStr := ("Chapter 1\nChapter 2\n# a\n# b").toList

/-- A sample on which each of the three patterns matches exactly one
line. -/
def lowSample : GoStr := ("第一章\nChapter 1\n# T").toList

/-- A sample on which only the markdown pattern scores, three times. -/
def mdSample : GoStr := ("# a\n# b\n# c").toList

/-- A chapter body with a single internal newline and no blank line. -/
def noBlankBody : GoStr := ("Hello\nWorld").toList

/-- Whether a string contains a run of two or more consecutive newline
characters (a blank-line boundary, in the words of the claim). -/
def hasBlankRun : GoStr → Bool
  | [] => false
  | [_] => false
  | c :: d :: cs => (c = '\n' && d = '\n') || hasBlankRun (d :: cs)

/-- A two-chapter library entry used by the progress-validation
counterexample and witnesses. -/
def twoChapters : List Chapter :=
  [⟨("T1").toList, ("a").toList⟩, ⟨("T2").toList, ("b").toList⟩]

/-! ## Claim theorems -/

/-- C8: on the document with lines `Chapter 1`, `Hello`, blank, `World`,
blank, `Chapter 2`, `Bye` and the Latin `Chapter N` pattern, splitting
produces exactly two chapters, and segmentation yields `[Hello, World]`
for chapter 1's body and `[Bye]` for chapter 2's body. -/
theorem c8_scenario_two_chapters :
    parseNovel matchEnglish scenarioDoc =
      .ok [⟨("Chapter 1").toList, ("Hello\n\nWorld").toList⟩,
           ⟨("Chapter 2").toList, ("Bye").toList⟩] ∧
    splitNLRuns (("Hello\n\nWorld").toList) = [("Hello").toList, ("World").toList] ∧
    splitNLRuns (("Bye").toList) = [("Bye").toList] := by decide

/-- C3 counterexample: on a sample where the english and markdown patterns
tie with the highest score 2, the result of `DetectFormat` depends on the
iteration order of the Go `scores` map (which Go randomizes), so two runs
need not return the same pattern and no fixed priority order resolves the
tie. -/
theorem c3_counterexample_tie_depends_on_order :
    scoreOf tieSample .english = 2 ∧ scoreOf tieSample .markdown = 2 ∧
    scoreOf tieSample .chinese = 0 ∧
    detectFormat [.english, .markdown] tieSample = some .english ∧
    detectFormat [.markdown, .english] tieSample = some .markdown ∧
    detectFormat [.english, .markdown] tieSample ≠
      detectFormat [.markdown, .english] tieSample := by decide

/-- C5 counterexample: on a sample where each of the three patterns
matches exactly one line, `DetectFormat` does not fail with NotDetected:
it falls back to the markdown pattern (whose count is ≥ 1), whatever the
iteration order of the score map. -/
theorem c5_counterexample_fallback_returns_markdown :
    scoreOf lowSample .chinese = 1 ∧ scoreOf lowSample .english = 1 ∧
    scoreOf lowSample .markdown = 1 ∧
    detectFormat [.chinese, .english, .markdown] lowSample = some .markdown ∧
    detectFormat [.chinese, .markdown, .english] lowSample = some .markdown ∧
    detectFormat [.english, .chinese, .markdown] lowSample = some .markdown ∧
    detectFormat [.english, .markdown, .chinese] lowSample = some .markdown ∧
    detectFormat [.markdown, .chinese, .english] lowSample = some .markdown ∧
    detectFormat [.markdown, .english, .chinese] lowSample = some .markdown ∧
    detectFormat [.chinese, .english, .markdown] lowSample ≠ none := by decide

/-- C4 counterexample: the body `Hello\nWorld` is non-empty and contains
no run of two or more consecutive newlines, yet segmentation (splitting
at `\n+`, src/main.go line 41) yields two segments, not one: the
segmenter splits at every newline run, not only at blank-line
boundaries. -/
theorem c4_counterexample_single_newline_splits :
    noBlankBody ≠ [] ∧ hasBlankRun noBlankBody = false ∧
    splitNLRuns noBlankBody = [("Hello").toList, ("World").toList] ∧
    splitNLRuns noBlankBody ≠ [noBlankBody] := by decide

/-- C7 counterexample: with two chapters loaded and persisted progress
`(1, 5)` — a valid chapter index but an out-of-range segment index — the
read prologue resets the progress to `(1, 0)`, keeping the chapter, not
to `(0, 0)` as the claim states (it does persist the correction
immediately: one save). -/
theorem c7_counterexample_segment_reset_keeps_chapter :
    readPrologue twoChapters (1, 5) none = .ok ⟨1, 0, (1, 0), 1⟩ ∧
    ((1 : Int), (0 : Int)) ≠ ((0 : Int), (0 : Int)) := by decide

/-- C9 counterexample: a config file whose bytes fail to unmarshal makes
startup terminate the process (`log.Fatalf` in src/main.go line 52):
loading does not always fall back to empty defaults. -/
theorem c9_counterexample_corrupt_config_is_fatal :
    startupLoads (.content none) .notExist = none := rfl

/-- C9 amended: at startup, an absent config or progress file falls back
to the empty default, and a progress file whose bytes fail to unmarshal
falls back to the empty map; but startup terminates the process exactly
when the config file is unreadable or fails to unmarshal, or when the
progress file is unreadable. -/
theorem c9_amended_startup_fallbacks (cf : FileRead AppConfig)
    (pf : FileRead ProgressData) :
    startupLoads .notExist .notExist = some (⟨[], [], false⟩, []) ∧
    (∀ cfg, startupLoads (.content (some cfg)) (.content none) = some (cfg, [])) ∧
    (startupLoads cf pf = none ↔
      (cf = .readErr ∨ cf = .content none ∨ pf = .readErr)) := by
  refine ⟨rfl, fun cfg => rfl, ?_⟩
  cases cf with
  | notExist => cases pf with
    | content p => cases p <;> simp [startupLoads, loadConfig, loadProgress]
    | _ => simp [startupLoads, loadConfig, loadProgress]
  | readErr => simp [startupLoads, loadConfig]
  | content p => cases p with
    | none => simp [startupLoads, loadConfig]
    | some cfg => cases pf with
      | content q => cases q <;> simp [startupLoads, loadConfig, loadProgress]
      | _ => simp [startupLoads, loadConfig, loadProgress]

/-! ## Lemmas for the partition law -/

/-- Appending one line to an accumulated body is one more joined line. -/
theorem joinNL_append_one (ls : List GoStr) (l : GoStr) :
    joinNL (ls ++ [l]) = joinNL ls ++ l ++ ['\n'] := by
  simp [joinNL, List.append_assoc]

/-- The scanner loop, started on an open chapter whose accumulated
content is the join of `acc`, produces exactly the converted blocks of
`blocksGo`. -/
theorem parseLoop_blocksGo (p : GoStr → Bool) (ls : List GoStr) :
    ∀ (chs : List Chapter) (t : GoStr) (acc : List GoStr),
      pFlush (parseLoop p ls ⟨chs, t, joinNL acc, false⟩) =
        chs ++ (blocksGo p (t, acc) ls).map blockChapter := by
  induction ls with
  | nil =>
    intro chs t acc
    simp [parseLoop, pFlush, blocksGo, blockChapter]
  | cons l ls ih =>
    intro chs t acc
    cases hpl : p l with
    | true =>
      have h1 : parseLoop p (l :: ls) ⟨chs, t, joinNL acc, false⟩
          = parseLoop p ls ⟨chs ++ [blockChapter (t, acc)], l, joinNL [], false⟩ := by
        simp [parseLoop, hpl, pFlush, blockChapter, joinNL]
      rw [h1, ih]
      simp [blocksGo, hpl, List.append_assoc]
    | false =>
      have h1 : parseLoop p (l :: ls) ⟨chs, t, joinNL acc, false⟩
          = parseLoop p ls ⟨chs, t, joinNL (acc ++ [l]), false⟩ := by
        simp [parseLoop, hpl, joinNL_append_one]
      rw [h1, ih]
      simp [blocksGo, hpl]

/-- The scanner loop on the whole document produces exactly the converted
blocks of `chapterBlocks`: lines before the first heading are dropped. -/
theorem parseLoop_chapterBlocks (p : GoStr → Bool) (ls : List GoStr) :
    ∀ (t c : GoStr), pFlush (parseLoop p ls ⟨[], t, c, true⟩) =
      (chapterBlocks p ls).map blockChapter := by
  induction ls with
  | nil =>
    intro t c
    simp [parseLoop, pFlush, chapterBlocks]
  | cons l ls ih =>
    intro t c
    cases hpl : p l with
    | true =>
      have h1 : parseLoop p (l :: ls) ⟨[], t, c, true⟩
          = parseLoop p ls ⟨[], l, joinNL [], false⟩ := by
        simp [parseLoop, hpl, pFlush, joinNL]
      rw [h1]
      have h2 := parseLoop_blocksGo p ls [] l []
      rw [h2]
      simp [chapterBlocks, hpl]
    | false =>
      have h1 : parseLoop p (l :: ls) ⟨[], t, c, true⟩
          = parseLoop p ls ⟨[], t, c, true⟩ := by
        simp [parseLoop, hpl]
      rw [h1, ih]
      simp [chapterBlocks, hpl]

/-- The lines of the blocks of `blocksGo`, flattened, are the open
block's heading and body lines followed by the remaining lines. -/
theorem blocksGo_flatten (p : GoStr → Bool) (ls : List GoStr) :
    ∀ (t : GoStr) (acc : List GoStr),
      (blocksGo p (t, acc) ls).flatMap (fun b => b.1 :: b.2) = t :: (acc ++ ls) := by
  induction ls with
  | nil =>
    intro t acc
    simp [blocksGo]
  | cons l ls ih =>
    intro t acc
    cases hpl : p l with
    | true => simp [blocksGo, hpl, ih]
    | false =>
      rw [blocksGo]
      simp only [hpl, Bool.false_eq_true, if_false, ih]
      simp

/-- The lines of the blocks of a document, flattened, are exactly the
document's lines from the first matched heading onward. -/
theorem chapterBlocks_flatten (p : GoStr → Bool) (ls : List GoStr) :
    (chapterBlocks p ls).flatMap (fun b => b.1 :: b.2) =
      ls.dropWhile (fun l => !(p l)) := by
  induction ls with
  | nil => simp [chapterBlocks]
  | cons l ls ih =>
    cases hpl : p l with
    | true => simp [chapterBlocks, hpl, blocksGo_flatten, List.dropWhile_cons]
    | false => simp [chapterBlocks, hpl, ih, List.dropWhile_cons]

/-- C2: whenever `ParseNovel` succeeds, its chapters are, in document
order, exactly the heading-delimited blocks of the document with title
and body whitespace-trimmed but otherwise verbatim; and those blocks
exactly tile the document's lines from the first matched heading line
onward. -/
theorem c2_parse_novel_partition (p : GoStr → Bool) (doc : GoStr)
    (chs : List Chapter) (h : parseNovel p doc = .ok chs) :
    chs = (chapterBlocks p (scanLines doc)).map blockChapter ∧
    (chapterBlocks p (scanLines doc)).flatMap (fun b => b.1 :: b.2) =
      (scanLines doc).dropWhile (fun l => !(p l)) := by
  constructor
  · simp only [parseNovel] at h
    split at h
    · exact absurd h (by simp)
    · have h2 := parseLoop_chapterBlocks p (scanLines doc) [] []
      simp only [Except.ok.injEq] at h
      rw [← h, h2]
  · exact chapterBlocks_flatten p (scanLines doc)

/-- Witness for C2, at the scenario document and the Latin pattern. -/
theorem c2_parse_novel_partition_witness :
    [(⟨("Chapter 1").toList, ("Hello\n\nWorld").toList⟩ : Chapter),
     ⟨("Chapter 2").toList, ("Bye").toList⟩] =
      (chapterBlocks matchEnglish (scanLines scenarioDoc)).map blockChapter ∧
    (chapterBlocks matchEnglish (scanLines scenarioDoc)).flatMap (fun b => b.1 :: b.2) =
      (scanLines scenarioDoc).dropWhile (fun l => !(matchEnglish l)) :=
  c2_parse_novel_partition matchEnglish scenarioDoc _ (by decide)

/-! ## Lemmas for the narration loop -/

/-- After the in-memory update, the progress entry is the target chapter
and current segment. -/
theorem progUpdate_prog (target segIdx : Nat) (st : LoopState) :
    (progUpdate target segIdx st).prog = ((target : Int), (segIdx : Int)) := by
  unfold progUpdate
  split_ifs with h
  · rfl
  · exact not_not.mp h

/-- C1: if the loop reaches segment `k` (all earlier non-skipped segments
complete successfully), the submission for `k` succeeds, and the process
dies while `k` is speaking (the completion wait never returns), then the
in-memory progress — which the signal handler flushes on exit — equals
exactly `(target, k)`: the update happens right after submission and
before the blocking wait, so recovery re-speaks segment `k`, not `k - 1`
or `k + 1`. -/
theorem c1_crash_while_speaking_progress (target : Nat) (segments : List GoStr)
    (oracle : Nat → SegOutcome) (start k : Nat) (st : LoopState)
    (hk : k < segments.length) (hsk : start ≤ k)
    (hne : trimGo (segments.getD k []) ≠ [])
    (hprev : ∀ j, start ≤ j → j < k → oracle j = .completeOk)
    (hcrash : oracle k = .crashWhileSpeaking) :
    (readLoop true target segments oracle start st).2 = .crashed ∧
    (readLoop true target segments oracle start st).1.prog =
      ((target : Int), (k : Int)) := by
  obtain ⟨n, hn⟩ : ∃ n, k - start = n := ⟨_, rfl⟩
  induction n generalizing start st with
  | zero =>
    have hks : start = k := by omega
    subst hks
    rw [readLoop, if_pos hk, if_neg hne, hcrash]
    exact ⟨rfl, progUpdate_prog _ _ _⟩
  | succ n ih =>
    have hlt : start < k := by omega
    rw [readLoop, if_pos (by omega : start < segments.length)]
    by_cases he : trimGo (segments.getD start []) = []
    · rw [if_pos he]
      exact ih (start + 1) st (by omega)
        (fun j h1 h2 => hprev j (by omega) h2) (by omega)
    · rw [if_neg he, hprev start le_rfl hlt]
      have hnl : start ≠ segments.length - 1 := by omega
      simp only [Bool.not_true, Bool.false_eq_true, if_false, hnl, ite_false]
      exact ih (start + 1) _ (by omega)
        (fun j h1 h2 => hprev j (by omega) h2) (by omega)

/-- The in-memory update never touches the submission trace. -/
theorem progUpdate_submitted (target segIdx : Nat) (st : LoopState) :
    (progUpdate target segIdx st).submitted = st.submitted := by
  unfold progUpdate
  split_ifs <;> rfl

/-- The periodic save never touches the progress entry. -/
theorem maybeSave_prog (st : LoopState) : (maybeSave st).prog = st.prog := by
  unfold maybeSave
  split_ifs <;> rfl

/-- The periodic save never touches the submission trace. -/
theorem maybeSave_submitted (st : LoopState) :
    (maybeSave st).submitted = st.submitted := by
  unfold maybeSave
  split_ifs <;> rfl

/-- Peeling one index off the last-started-segment fold. -/
theorem lastStartedProg_step (target : Nat) (segments : List GoStr)
    (p0 : Int × Int) (start k : Nat) (hlt : start < k) :
    lastStartedProg target segments p0 start k =
      lastStartedProg target segments
        (if trimGo (segments.getD start []) = [] then p0
         else ((target : Int), (start : Int))) (start + 1) k := by
  unfold lastStartedProg
  have h1 : k - start = (k - (start + 1)) + 1 := by omega
  rw [h1, List.range'_succ, List.foldl_cons]

/-- The last-started-segment fold over an empty range is the initial
entry. -/
theorem lastStartedProg_self (target : Nat) (segments : List GoStr)
    (p0 : Int × Int) (k : Nat) :
    lastStartedProg target segments p0 k k = p0 := by
  simp [lastStartedProg]

/-- C6: if the loop reaches segment `k` and the speech submission for `k`
fails (`SpeakAsync` returns an error), the invocation aborts immediately
and the in-memory progress is not updated for `k`: it still records the
last successfully started segment (or the initial, previously committed
entry when no earlier segment was started in this invocation). -/
theorem c6_submission_failure_preserves_progress (target : Nat)
    (segments : List GoStr) (oracle : Nat → SegOutcome) (start k : Nat)
    (st : LoopState) (hk : k < segments.length) (hsk : start ≤ k)
    (hne : trimGo (segments.getD k []) ≠ [])
    (hprev : ∀ j, start ≤ j → j < k → oracle j = .completeOk)
    (hfail : oracle k = .submitFail) :
    (readLoop true target segments oracle start st).2 = .submitError ∧
    (readLoop true target segments oracle start st).1.prog =
      lastStartedProg target segments st.prog start k := by
  obtain ⟨n, hn⟩ : ∃ n, k - start = n := ⟨_, rfl⟩
  induction n generalizing start st with
  | zero =>
    have hks : start = k := by omega
    subst hks
    rw [readLoop, if_pos hk, if_neg hne, hfail, lastStartedProg_self]
    exact ⟨rfl, rfl⟩
  | succ n ih =>
    have hlt : start < k := by omega
    rw [readLoop, if_pos (by omega : start < segments.length)]
    by_cases he : trimGo (segments.getD start []) = []
    · rw [if_pos he, lastStartedProg_step target segments st.prog start k hlt,
        if_pos he]
      exact ih (start + 1) st (by omega)
        (fun j h1 h2 => hprev j (by omega) h2) (by omega)
    · rw [if_neg he, hprev start le_rfl hlt]
      have hnl : start ≠ segments.length - 1 := by omega
      simp only [Bool.not_true, Bool.false_eq_true, if_false, hnl, ite_false]
      refine ⟨(ih (start + 1) _ (by omega)
        (fun j h1 h2 => hprev j (by omega) h2) (by omega)).1, ?_⟩
      rw [(ih (start + 1) _ (by omega)
        (fun j h1 h2 => hprev j (by omega) h2) (by omega)).2]
      rw [lastStartedProg_step target segments st.prog start k hlt, if_neg he]
      congr 1
      rw [maybeSave_prog]
      exact progUpdate_prog target start _

/-- Witness for C1: three segments, the speech capability completes
segment 0 and the process dies while segment 1 is speaking; the recovered
progress is exactly segment 1. -/
theorem c1_crash_while_speaking_progress_witness :
    (readLoop true 0 [['a'], ['b'], ['c']]
        (fun j => if j = 1 then .crashWhileSpeaking else .completeOk) 0
        ⟨(0, 0), false, (0, 0), 0, []⟩).2 = .crashed ∧
    (readLoop true 0 [['a'], ['b'], ['c']]
        (fun j => if j = 1 then .crashWhileSpeaking else .completeOk) 0
        ⟨(0, 0), false, (0, 0), 0, []⟩).1.prog = (((0 : Nat) : Int), ((1 : Nat) : Int)) :=
  c1_crash_while_speaking_progress 0 [['a'], ['b'], ['c']]
    (fun j => if j = 1 then .crashWhileSpeaking else .completeOk) 0 1
    ⟨(0, 0), false, (0, 0), 0, []⟩ (by decide) (by decide) (by decide)
    (fun j _ h2 => by
      have hj : j = 0 := by omega
      subst hj
      rfl)
    (by decide)

/-- Witness for C6: two segments, segment 0 completes and the submission
for segment 1 fails; the loop aborts with the progress of the last
started segment. -/
theorem c6_submission_failure_preserves_progress_witness :
    (readLoop true 0 [['a'], ['b']]
        (fun j => if j = 1 then .submitFail else .completeOk) 0
        ⟨(0, 0), false, (0, 0), 0, []⟩).2 = .submitError ∧
    (readLoop true 0 [['a'], ['b']]
        (fun j => if j = 1 then .submitFail else .completeOk) 0
        ⟨(0, 0), false, (0, 0), 0, []⟩).1.prog =
      lastStartedProg 0 [['a'], ['b']] (0, 0) 0 1 :=
  c6_submission_failure_preserves_progress 0 [['a'], ['b']]
    (fun j => if j = 1 then .submitFail else .completeOk) 0 1
    ⟨(0, 0), false, (0, 0), 0, []⟩ (by decide) (by decide) (by decide)
    (fun j _ h2 => by
      have hj : j = 0 := by omega
      subst hj
      rfl)
    (by decide)

/-- Every text the segment loop ever submits to the speech capability is
non-empty: pieces are trimmed first and pieces that trim to empty are
skipped without a speech call. -/
theorem readLoop_submitted_nonempty (autoNext : Bool) (target : Nat)
    (segments : List GoStr) (oracle : Nat → SegOutcome) :
    ∀ (start : Nat) (st : LoopState),
      (∀ t ∈ st.submitted, t ≠ []) →
      ∀ t ∈ (readLoop autoNext target segments oracle start st).1.submitted,
        t ≠ [] := by
  intro start st hst
  obtain ⟨n, hn⟩ : ∃ n, segments.length - start = n := ⟨_, rfl⟩
  induction n generalizing start st with
  | zero =>
    rw [readLoop, if_neg (by omega : ¬ start < segments.length)]
    exact hst
  | succ n ih =>
    have hlt : start < segments.length := by omega
    rw [readLoop, if_pos hlt]
    by_cases he : trimGo (segments.getD start []) = []
    · rw [if_pos he]
      exact ih (start + 1) st hst (by omega)
    · rw [if_neg he]
      have hst1 : ∀ t ∈ (st.submitted ++ [trimGo (segments.getD start [])]),
          t ≠ [] := by
        intro t ht
        rcases List.mem_append.mp ht with h | h
        · exact hst t h
        · rw [List.mem_singleton.mp h]
          exact he
      split
      · exact hst1
      · intro t ht
        simp only [progUpdate_submitted] at ht
        exact hst1 t ht
      · intro t ht
        simp only [progUpdate_submitted] at ht
        exact hst1 t ht
      · split
        · intro t ht
          simp only [maybeSave_submitted, progUpdate_submitted] at ht
          exact hst1 t ht
        · split
          · intro t ht
            simp only [maybeSave_submitted, progUpdate_submitted] at ht
            exact hst1 t ht
          · refine ih (start + 1) _ ?_ (by omega)
            intro t ht
            simp only [maybeSave_submitted, progUpdate_submitted] at ht
            exact hst1 t ht

/-- C10: for every chapter body, every oracle behaviour and every
starting point, the narration loop never submits empty text to the
speech capability, so the `cannot speak empty text` branch of
`SpeakAsync` is unreachable from the read loop. -/
theorem c10_no_empty_text_submitted (autoNext : Bool) (target : Nat)
    (body : GoStr) (oracle : Nat → SegOutcome) (start : Nat)
    (pr ps : Int × Int) (d : Bool) (n : Nat) :
    List.Forall (fun t => speakAsyncRejects t = false)
      ((readLoop autoNext target (splitNLRuns body) oracle start
        ⟨pr, d, ps, n, []⟩).1.submitted) := by
  rw [List.forall_iff_forall_mem]
  intro t ht
  have h1 := readLoop_submitted_nonempty autoNext target (splitNLRuns body)
    oracle start ⟨pr, d, ps, n, []⟩ (by intro t ht; simp at ht) t ht
  simpa [speakAsyncRejects] using h1

/-! ## Lemmas for format-detection determinism -/

/-- A permutation of the three pattern names is one of the six explicit
orders. -/
theorem perm_formats_eq (l : List Format) (h : l.Perm formats) :
    l = [.chinese, .english, .markdown] ∨ l = [.chinese, .markdown, .english] ∨
    l = [.english, .chinese, .markdown] ∨ l = [.english, .markdown, .chinese] ∨
    l = [.markdown, .chinese, .english] ∨ l = [.markdown, .english, .chinese] := by
  have hlen : l.length = 3 := h.length_eq
  rcases l with _ | ⟨a, _ | ⟨b, _ | ⟨c, _ | ⟨d, tl⟩⟩⟩⟩
  · exact absurd hlen (by simp)
  · exact absurd hlen (by simp)
  · exact absurd hlen (by simp)
  · cases a <;> cases b <;> cases c <;> revert h <;> decide
  · exact absurd hlen (by simp)

/-- When every score is at or below the confidence threshold, the
selection loop never picks a best format, whatever the iteration order. -/
theorem selectLoop_all_low (score : Format → Nat) (order : List Format)
    (h : ∀ f, score f ≤ 1) : selectLoop score order = (none, 1) := by
  induction order with
  | nil => rfl
  | cons f fs ih =>
    have h1 : ¬ score f > 1 := by have := h f; omega
    simp only [selectLoop, List.foldl_cons, h1, if_false] at ih ⊢
    exact ih

/-- Either a format is the strict maximum or its score is strictly
below it. -/
theorem pick_arg (score : Format → Nat) (f : Format)
    (hmax : ∀ g, g ≠ f → score g < score f) (g : Format) :
    g = f ∨ score g < score f := by
  by_cases hg : g = f
  · exact Or.inl hg
  · exact Or.inr (hmax g hg)

/-- On any three-element order containing the unique strict maximum, the
selection loop returns exactly that maximum. -/
theorem foldl_pick (score : Format → Nat) (x y z f : Format)
    (hf : 2 ≤ score f)
    (hx : x = f ∨ score x < score f) (hy : y = f ∨ score y < score f)
    (hz : z = f ∨ score z < score f) (hmem : x = f ∨ y = f ∨ z = f) :
    selectLoop score [x, y, z] = (some f, score f) := by
  simp only [selectLoop, List.foldl_cons, List.foldl_nil]
  rcases hx with rfl | hx <;> rcases hy with rfl | hy <;> rcases hz with rfl | hz <;>
    first
      | (split_ifs <;> first | rfl | (exfalso; omega))
      | (rcases hmem with rfl | rfl | rfl <;> exfalso <;> omega)

/-- With a unique strict maximum above the threshold, the selection loop
returns it on every possible iteration order. -/
theorem selectLoop_unique_max (score : Format → Nat) (f : Format)
    (hf : 2 ≤ score f) (hmax : ∀ g, g ≠ f → score g < score f)
    (order : List Format) (hperm : order.Perm formats) :
    selectLoop score order = (some f, score f) := by
  rcases perm_formats_eq order hperm with rfl | rfl | rfl | rfl | rfl | rfl <;>
    exact foldl_pick score _ _ _ f hf (pick_arg score f hmax _)
      (pick_arg score f hmax _) (pick_arg score f hmax _)
      (by cases f <;> decide)

/-- C3 amended: `DetectFormat` is deterministic — independent of the
randomized iteration order of the Go score map — on every sample whose
highest score is either at most 1 (the fallback path) or attained by a
unique pattern with score at least 2; when two patterns tie at the
highest score above the threshold, the winner depends on the iteration
order, which Go randomizes, so no fixed priority list resolves ties. -/
theorem c3_amended_detect_deterministic_no_tie (sample : GoStr)
    (order1 order2 : List Format)
    (h1 : order1.Perm formats) (h2 : order2.Perm formats)
    (hnt : (∀ f, scoreOf sample f ≤ 1) ∨
      (∃ f, 2 ≤ scoreOf sample f ∧
        ∀ g, g ≠ f → scoreOf sample g < scoreOf sample f)) :
    detectFormat order1 sample = detectFormat order2 sample := by
  rcases hnt with hlow | ⟨f, hf, hmax⟩
  · simp only [detectFormat]
    rw [selectLoop_all_low _ _ hlow, selectLoop_all_low _ _ hlow]
  · simp only [detectFormat]
    rw [selectLoop_unique_max _ f hf hmax order1 h1,
      selectLoop_unique_max _ f hf hmax order2 h2]

/-- Witness for the amended C3, at a sample where markdown is the unique
strict maximum with score 3 and two different iteration orders. -/
theorem c3_amended_detect_deterministic_no_tie_witness :
    detectFormat [.chinese, .english, .markdown] mdSample =
      detectFormat [.markdown, .english, .chinese] mdSample :=
  c3_amended_detect_deterministic_no_tie mdSample
    [.chinese, .english, .markdown] [.markdown, .english, .chinese]
    (by decide) (by decide)
    (Or.inr ⟨.markdown, by decide, by
      intro g hg
      cases g with
      | chinese => decide
      | english => decide
      | markdown => exact absurd rfl hg⟩)

/-- C5 amended: on any sample where no pattern scores above the
confidence threshold 1, `DetectFormat` does not simply fail: it returns
the markdown pattern whenever markdown matched at least one line, and
fails with NotDetected only when markdown matched nothing — whatever the
iteration order of the score map.  In particular a sample where every
pattern matches exactly one line yields the markdown fallback, not
NotDetected. -/
theorem c5_amended_low_confidence_markdown_fallback (sample : GoStr)
    (order : List Format) (h : ∀ f, scoreOf sample f ≤ 1) :
    detectFormat order sample =
      if 1 ≤ scoreOf sample .markdown then some .markdown else none := by
  simp only [detectFormat]
  rw [selectLoop_all_low _ _ h]
  simp

/-- Witness for the amended C5, at the sample where each pattern matches
exactly one line. -/
theorem c5_amended_low_confidence_markdown_fallback_witness :
    detectFormat formats lowSample = some .markdown := by
  rw [c5_amended_low_confidence_markdown_fallback lowSample formats
    (by intro f; cases f <;> decide)]
  decide

/-- C7 amended: on a read invocation that resumes from persisted progress
(no chapter argument), the prologue restores the bounds invariant — the
resulting progress entry equals the resolved in-range target chapter and
start segment — and self-heals corrupt values with an immediate save: an
out-of-range chapter index is reset to `(0, 0)`, while an out-of-range
segment index under a valid chapter index is reset to `(chapter, 0)`,
keeping the chapter; in both cases exactly one immediate save is
performed, and any change to the stored entry is persisted
immediately. -/
theorem c7_amended_progress_validation (chapters : List Chapter)
    (stored : Int × Int) (r : ReadSetup)
    (h : readPrologue chapters stored none = .ok r) :
    (r.stored = ((r.target : Int), (r.startSeg : Int)) ∧
      r.target < chapters.length ∧
      r.startSeg <
        (splitNLRuns (chapters.getD r.target ⟨[], []⟩).content).length) ∧
    ((stored.1 < 0 ∨ (chapters.length : Int) ≤ stored.1) →
      r.stored = (0, 0) ∧ r.saves = 1) ∧
    (0 ≤ stored.1 → stored.1 < (chapters.length : Int) →
      (stored.2 < 0 ∨
        ((splitNLRuns (chapters.getD stored.1.toNat ⟨[], []⟩).content).length : Int)
          ≤ stored.2) →
      r.stored = (stored.1, 0) ∧ r.saves = 1) ∧
    (r.stored ≠ stored → 1 ≤ r.saves) := by
  obtain ⟨s1, s2⟩ := stored
  simp only [readPrologue, readValidate, readSegValidate] at h
  split_ifs at h <;>
    first
      | exact Except.noConfusion h
      | (injection h with h
         subst h
         simp only [ne_eq, Prod.mk.injEq, not_and] at *
         refine ⟨⟨?_, ?_, ?_⟩, ?_, ?_, ?_⟩ <;> (intros; try constructor) <;>
           first | omega | (exfalso; omega) | simp_all)

/-- Witness for the amended C7: two chapters, persisted progress
`(5, 7)` — an out-of-range chapter index — is healed to `(0, 0)` with one
immediate save. -/
theorem c7_amended_progress_validation_witness :
    (⟨0, 0, ((0 : Int), (0 : Int)), 1⟩ : ReadSetup).stored =
      ((0 : Int), (0 : Int)) ∧
    (⟨0, 0, ((0 : Int), (0 : Int)), 1⟩ : ReadSetup).saves = 1 :=
  (c7_amended_progress_validation twoChapters (5, 7)
    ⟨0, 0, ((0 : Int), (0 : Int)), 1⟩ (by decide)).2.1 (by decide)

/-! ## Lemmas for the segmenter -/

/-- Prepending a character never yields an empty piece list. -/
theorem consHead_ne_nil (c : Char) (L : List GoStr) : consHead c L ≠ [] := by
  cases L <;> simp [consHead]

/-- The segment splitter never returns an empty piece list. -/
theorem splitNLRuns_ne_nil (s : GoStr) : splitNLRuns s ≠ [] := by
  cases s with
  | nil => simp [splitNLRuns]
  | cons c cs =>
    rw [splitNLRuns]
    split_ifs
    · simp
    · exact consHead_ne_nil c (splitNLRuns cs)

/-- C4-part lemma: a body without any newline character is a single
segment. -/
theorem splitNLRuns_no_newline (s : GoStr) (hne : s ≠ []) (hnl : '\n' ∉ s) :
    splitNLRuns s = [s] := by
  induction s with
  | nil => exact absurd rfl hne
  | cons c cs ih =>
    have hc : ¬ c = '\n' := fun h => hnl (h ▸ List.mem_cons_self c cs)
    rw [splitNLRuns, if_neg hc]
    cases cs with
    | nil => rfl
    | cons d ds =>
      rw [ih (by simp) (fun h => hnl (List.mem_cons_of_mem c h))]
      rfl

/-- Dropping a prefix does not change the last element, as long as
something remains. -/
theorem dropWhile_getLast? (p : Char → Bool) (l : GoStr)
    (h : l.dropWhile p ≠ []) : (l.dropWhile p).getLast? = l.getLast? := by
  induction l with
  | nil => exact absurd rfl h
  | cons a t ih =>
    by_cases hp : p a
    · rw [List.dropWhile_cons, if_pos hp] at h ⊢
      have ht : t ≠ [] := by
        intro hh
        rw [hh] at h
        exact h rfl
      obtain ⟨b, t', rfl⟩ : ∃ b t', t = b :: t' := by
        cases t with
        | nil => exact absurd rfl ht
        | cons b t' => exact ⟨b, t', rfl⟩
      rw [ih h, List.getLast?_cons_cons]
    · rw [List.dropWhile_cons, if_neg hp]

/-- A string equal to its own trim neither starts nor ends with a
newline (when non-empty). -/
theorem trimGo_eq_self_bounds (s : GoStr) (h : trimGo s = s) (hne : s ≠ []) :
    s.head? ≠ some '\n' ∧ s.getLast? ≠ some '\n' := by
  have hlen : (trimGo s).length = s.length := by rw [h]
  have htri : (trimGo s).length ≤ (s.dropWhile goSpace).length := by
    unfold trimGo
    calc ((s.dropWhile goSpace).reverse.dropWhile goSpace).reverse.length
        = ((s.dropWhile goSpace).reverse.dropWhile goSpace).length := by
          rw [List.length_reverse]
      _ ≤ (s.dropWhile goSpace).reverse.length := (List.dropWhile_sublist _).length_le
      _ = (s.dropWhile goSpace).length := by rw [List.length_reverse]
  constructor
  · intro hh
    obtain ⟨t, rfl⟩ : ∃ t, s = '\n' :: t := by
      cases s with
      | nil => exact absurd rfl hne
      | cons a t =>
        refine ⟨t, ?_⟩
        simp only [List.head?_cons, Option.some.injEq] at hh
        rw [hh]
    have h1 : (('\n' :: t).dropWhile goSpace).length ≤ t.length := by
      rw [List.dropWhile_cons, if_pos (by decide)]
      exact (List.dropWhile_sublist _).length_le
    simp only [List.length_cons] at hlen
    omega
  · intro hl
    by_cases hd : s.dropWhile goSpace = []
    · rw [trimGo, hd] at h
      exact hne (by simpa using h.symm)
    · have hdl : (s.dropWhile goSpace).getLast? = some '\n' :=
        (dropWhile_getLast? goSpace s hd).trans hl
      have hrev : (s.dropWhile goSpace).reverse.head? = some '\n' := by
        rw [List.head?_reverse]
        exact hdl
      obtain ⟨u, hu⟩ : ∃ u, (s.dropWhile goSpace).reverse = '\n' :: u := by
        cases hrc : (s.dropWhile goSpace).reverse with
        | nil => rw [hrc] at hrev; simp at hrev
        | cons a u =>
          rw [hrc] at hrev
          simp only [List.head?_cons, Option.some.injEq] at hrev
          exact ⟨u, by rw [hrev]⟩
      have h2 : ((s.dropWhile goSpace).reverse.dropWhile goSpace).length ≤ u.length := by
        rw [hu, List.dropWhile_cons, if_pos (by decide)]
        exact (List.dropWhile_sublist _).length_le
      have h3 : (s.dropWhile goSpace).reverse.length = u.length + 1 := by
        rw [hu, List.length_cons]
      have h4 : (s.dropWhile goSpace).length ≤ s.length :=
        (List.dropWhile_sublist _).length_le
      have h5 : (trimGo s).length ≤ u.length := by
        unfold trimGo
        rw [List.length_reverse]
        exact h2
      rw [List.length_reverse] at h3
      omega

/-- Joint induction: for a string not ending in a newline, the tail of
`splitNLRuns` has no empty piece, and (when the string is non-empty)
`afterNLRun` has no empty piece at all. -/
theorem splitNLRuns_tail_no_empty :
    ∀ (n : Nat) (s : GoStr), s.length ≤ n → s.getLast? ≠ some '\n' →
      ([] ∉ (splitNLRuns s).tail) ∧ (s ≠ [] → [] ∉ afterNLRun s) := by
  intro n
  induction n with
  | zero =>
    intro s hl _
    obtain rfl : s = [] := by
      cases s with
      | nil => rfl
      | cons a t => simp at hl
    exact ⟨by simp [splitNLRuns], fun hne => absurd rfl hne⟩
  | succ n ih =>
    intro s hl hlast
    cases s with
    | nil => exact ⟨by simp [splitNLRuns], fun hne => absurd rfl hne⟩
    | cons c cs =>
      by_cases hc : c = '\n'
      · subst hc
        cases cs with
        | nil => simp at hlast
        | cons d ds =>
          have hlast' : (d :: ds).getLast? ≠ some '\n' := by
            rwa [List.getLast?_cons_cons] at hlast
          obtain ⟨_, hA⟩ := ih (d :: ds) (by simpa using hl) hlast'
          refine ⟨?_, fun _ => ?_⟩
          · rw [splitNLRuns, if_pos rfl]
            exact hA (by simp)
          · rw [afterNLRun, if_pos rfl]
            exact hA (by simp)
      · have key : [] ∉ consHead c (splitNLRuns cs) ∧
            [] ∉ (consHead c (splitNLRuns cs)).tail := by
          cases cs with
          | nil =>
            constructor <;> simp [splitNLRuns, consHead]
          | cons d ds =>
            have hlast' : (d :: ds).getLast? ≠ some '\n' := by
              rwa [List.getLast?_cons_cons] at hlast
            obtain ⟨hB, _⟩ := ih (d :: ds) (by simpa using hl) hlast'
            cases hL : splitNLRuns (d :: ds) with
            | nil => exact absurd hL (splitNLRuns_ne_nil _)
            | cons p ps =>
              rw [hL] at hB
              simp only [List.tail_cons] at hB
              constructor
              · rw [consHead]
                intro hmem
                rcases List.mem_cons.mp hmem with h1 | h1
                · exact List.noConfusion h1
                · exact hB h1
              · rw [consHead]
                simpa using hB
        constructor
        · rw [splitNLRuns, if_neg hc]
          exact key.2
        · intro _
          rw [afterNLRun, if_neg hc]
          exact key.1

/-- For a non-empty string equal to its own trim — as every chapter body
produced by `ParseNovel` is — the segment splitter materializes no empty
piece. -/
theorem splitNLRuns_trimmed_no_empty (s : GoStr) (h : trimGo s = s)
    (hne : s ≠ []) : [] ∉ splitNLRuns s := by
  obtain ⟨hh, hl⟩ := trimGo_eq_self_bounds s h hne
  cases s with
  | nil => exact absurd rfl hne
  | cons c cs =>
    have hc : ¬ c = '\n' := by
      intro hcc
      rw [hcc] at hh
      simp at hh
    have hB := (splitNLRuns_tail_no_empty (c :: cs).length (c :: cs) le_rfl hl).1
    rw [splitNLRuns, if_neg hc] at hB ⊢
    cases hL : splitNLRuns cs with
    | nil => exact absurd hL (splitNLRuns_ne_nil _)
    | cons p ps =>
      rw [hL] at hB
      rw [consHead] at hB ⊢
      simp only [List.tail_cons] at hB
      intro hmem
      rcases List.mem_cons.mp hmem with h1 | h1
      · exact List.noConfusion h1
      · exact hB h1

/-- C4 amended: a non-empty chapter body with no newline character at all
yields exactly one segment, the whole body; the segmenter splits at every
maximal run of one-or-more newlines (so a single newline already
separates segments, not only a blank line); and on trimmed bodies, as
`ParseNovel` produces, it materializes no empty segment. -/
theorem c4_amended_segmentation (body : GoStr) :
    (body ≠ [] → '\n' ∉ body → splitNLRuns body = [body]) ∧
    (trimGo body = body → body ≠ [] → [] ∉ splitNLRuns body) :=
  ⟨fun hne hnl => splitNLRuns_no_newline body hne hnl,
   fun ht hne => splitNLRuns_trimmed_no_empty body ht hne⟩

/-- Witness for the amended C4, at a one-line body and a trimmed two-line
body. -/
theorem c4_amended_segmentation_witness :
    splitNLRuns (("Hello").toList) = [("Hello").toList] ∧
    [] ∉ splitNLRuns (("Hello\nWorld").toList) :=
  ⟨(c4_amended_segmentation (("Hello").toList)).1 (by decide) (by decide),
   (c4_amended_segmentation (("Hello\nWorld").toList)).2 (by decide) (by decide)⟩

/-- Witness for the amended C9: both files absent yields the empty
default state. -/
theorem c9_amended_startup_fallbacks_witness :
    startupLoads FileRead.notExist FileRead.notExist =
      some (⟨[], [], false⟩, []) :=
  (c9_amended_startup_fallbacks FileRead.notExist FileRead.notExist).1
